import Mathlib

/-!
# Verification of the siren-router matching and dispatch engine

Shallow embedding of the router found in `lib/router.js` and `lib/route.js`
(Route construction, path matching, parameter decoding, URL generation,
parameter hooks, and the per-request dispatch continuation), together with
theorems settling the specification claims about it.

Conventions:
* JavaScript strings are Lean `String`s (all inputs of interest are ASCII).
* JavaScript objects used as ordered string-keyed maps are association lists
  with insertion-order preserving updates (`assocSet`) and first-hit lookup
  (`assocLookup`), matching `for..in` / `Object.keys` enumeration order.
* The compiled regular expression of a route (produced by the external
  `path-to-regexp` library) is abstracted as a function returning, on success,
  the matched prefix text (`matches[0]`) and the list of capture groups
  (`matches.slice(1)`, `none` standing for an `undefined` capture).
* `decodeURIComponent` / `encodeURIComponent` are the JavaScript built-ins,
  modelled as total Lean functions (`Option`-valued for the decoder, which
  fails on malformed percent-encoding exactly where the built-in throws).
-/

namespace SirenRouter

/-! ## Ordered association lists (JS object maps) -/

/-- Insertion-order preserving update: replace the value at an existing key,
otherwise append the binding, as JS `obj[k] = v` behaves under `for..in`. -/
def assocSet {α : Type} : List (String × α) → String → α → List (String × α)
  | [], k, v => [(k, v)]
  | (k', v') :: rest, k, v =>
    if k' = k then (k', v) :: rest else (k', v') :: assocSet rest k v

/-- First-hit lookup, as JS property access `obj[k]`. -/
def assocLookup {α : Type} : List (String × α) → String → Option α
  | [], _ => none
  | (k', v') :: rest, k => if k = k' then some v' else assocLookup rest k

theorem assocLookup_assocSet {α : Type} (m : List (String × α)) (k p : String) (v : α) :
    assocLookup (assocSet m k v) p = if p = k then some v else assocLookup m p := by
  induction m with
  | nil => simp [assocSet, assocLookup]
  | cons hd tl ih =>
    obtain ⟨k', v'⟩ := hd
    by_cases hk : k' = k
    · subst hk
      by_cases hp : p = k' <;> simp [assocSet, assocLookup, hp]
    · by_cases hp : p = k'
      · subst hp
        simp [assocSet, assocLookup, hk, Ne.symm hk]
      · simp [assocSet, assocLookup, hk, hp, ih]

/-! ## Percent decoding (`decodeURIComponent` model) -/

/-- Numeric value of a hexadecimal digit, `none` for a non-hex character. -/
def hexDigitVal (c : Char) : Option Nat :=
  if 'a' ≤ c ∧ c ≤ 'f' then some (10 + c.toNat - 'a'.toNat)
  else if 'A' ≤ c ∧ c ≤ 'F' then some (10 + c.toNat - 'A'.toNat)
  else if '0' ≤ c ∧ c ≤ '9' then some (c.toNat - '0'.toNat)
  else none

/-- One token of a URI-encoded string: a literal character or a `%XX` byte. -/
inductive UriTok where
  | ch (c : Char)
  | byte (b : Nat)
deriving Repr, DecidableEq

/-- Tokenize a URI component: each `%` must be followed by two hex digits
(otherwise the built-in decoder throws, modelled as `none`). -/
def uriToks : List Char → Option (List UriTok)
  | [] => some []
  | '%' :: h :: l :: rest =>
    match hexDigitVal h, hexDigitVal l with
    | some hv, some lv => (uriToks rest).map (UriTok.byte (16 * hv + lv) :: ·)
    | _, _ => none
  | '%' :: _ => none
  | c :: rest => (uriToks rest).map (UriTok.ch c :: ·)

/-- Reassemble decoded bytes as UTF-8 text; `none` on an invalid sequence
(where the built-in decoder throws a `URIError`). -/
def utf8Assemble : List UriTok → Option (List Char)
  | [] => some []
  | .ch c :: ts => (utf8Assemble ts).map (c :: ·)
  | .byte b :: ts =>
    if b < 0x80 then (utf8Assemble ts).map (Char.ofNat b :: ·)
    else if 0xC2 ≤ b ∧ b ≤ 0xDF then
      match ts with
      | .byte b2 :: ts' =>
        if 0x80 ≤ b2 ∧ b2 ≤ 0xBF then
          (utf8Assemble ts').map (Char.ofNat ((b - 0xC0) * 64 + (b2 - 0x80)) :: ·)
        else none
      | _ => none
    else if 0xE0 ≤ b ∧ b ≤ 0xEF then
      match ts with
      | .byte b2 :: .byte b3 :: ts' =>
        if (0x80 ≤ b2 ∧ b2 ≤ 0xBF) ∧ (0x80 ≤ b3 ∧ b3 ≤ 0xBF) then
          let n := (b - 0xE0) * 4096 + (b2 - 0x80) * 64 + (b3 - 0x80)
          if 0x800 ≤ n ∧ (n < 0xD800 ∨ 0xDFFF < n) then
            (utf8Assemble ts').map (Char.ofNat n :: ·)
          else none
        else none
      | _ => none
    else if 0xF0 ≤ b ∧ b ≤ 0xF4 then
      match ts with
      | .byte b2 :: .byte b3 :: .byte b4 :: ts' =>
        if (0x80 ≤ b2 ∧ b2 ≤ 0xBF) ∧ (0x80 ≤ b3 ∧ b3 ≤ 0xBF) ∧ (0x80 ≤ b4 ∧ b4 ≤ 0xBF) then
          let n := (b - 0xF0) * 262144 + (b2 - 0x80) * 4096 + (b3 - 0x80) * 64 + (b4 - 0x80)
          if 0x10000 ≤ n ∧ n ≤ 0x10FFFF then
            (utf8Assemble ts').map (Char.ofNat n :: ·)
          else none
        else none
      | _ => none
    else none

/-- Model of the JavaScript built-in `decodeURIComponent`: `none` exactly where
the built-in raises a `URIError`. -/
def decodeURIComponent (s : String) : Option String :=
  ((uriToks s.data).bind utf8Assemble).map String.mk

/-- Function `safeDecodeURIComponent` from `lib/route.js`: wraps `decodeURIComponent`
in try/catch and returns the original text when decoding fails. -/
def safeDecodeURIComponent (text : String) : String :=
  match decodeURIComponent text with
  | some r => r
  | none => text

/-! ## Percent encoding (`encodeURIComponent` model) -/

/-- Characters `encodeURIComponent` leaves unescaped. -/
def uriUnreserved (c : Char) : Bool :=
  ('A' ≤ c && c ≤ 'Z') || ('a' ≤ c && c ≤ 'z') || ('0' ≤ c && c ≤ '9') ||
  c == '-' || c == '_' || c == '.' || c == '!' || c == '~' || c == '*' ||
  c == Char.ofNat 39 || c == '(' || c == ')'

/-- Uppercase hex digit character for a value below 16. -/
def hexChar (n : Nat) : Char :=
  if n < 10 then Char.ofNat ('0'.toNat + n) else Char.ofNat ('A'.toNat + n - 10)

/-- UTF-8 bytes of a character. -/
def utf8Bytes (c : Char) : List Nat :=
  let n := c.toNat
  if n < 0x80 then [n]
  else if n < 0x800 then [0xC0 + n / 64, 0x80 + n % 64]
  else if n < 0x10000 then [0xE0 + n / 4096, 0x80 + (n / 64) % 64, 0x80 + n % 64]
  else [0xF0 + n / 262144, 0x80 + (n / 4096) % 64, 0x80 + (n / 64) % 64, 0x80 + n % 64]

/-- Model of the JavaScript built-in `encodeURIComponent`. -/
def encodeURIComponent (s : String) : String :=
  String.mk (s.data.flatMap fun c =>
    if uriUnreserved c then [c]
    else (utf8Bytes c).flatMap fun b => ['%', hexChar (b / 16), hexChar (b % 16)])

/-! ## Route construction (`lib/route.js`)

The `Route` constructor normalizes its `methods` argument (empty array means
prefix mode), and compiles the path pattern through `path-to-regexp` with the
option record
`{ sensitive: opts.caseSensitive, strict: opts.strict || !this.asPrefix,
   end: this.asPrefix ? false : true }`.
The source field `asPrefix` is named `prefixMode` here.
The compiler itself is an external dependency; what belongs to this repository
(and is embedded here) is the option record handed to it. -/

/-- The `strict` flag passed to `path-to-regexp`: `this.opts.strict || !this.asPrefix`. -/
def routeStrictFlag (optsStrict : Bool) (prefixMode : Bool) : Bool :=
  optsStrict || !prefixMode

/-- The `end` flag passed to `path-to-regexp`: `this.asPrefix ? false : true`. -/
def routeEndFlag (prefixMode : Bool) : Bool :=
  !prefixMode

/-- The option record a string-pattern route hands to `path-to-regexp`. -/
structure CompileFlags where
  sensitive : Bool
  strict : Bool
  endAnchor : Bool
deriving Repr, DecidableEq

/-- Compile-relevant outcome of running the `Route` constructor on a string
pattern.  The `methods` argument is `Option`-valued because `router.mount`
passes the JS value `null` (`none` here); the constructor immediately reads
`methods.length`, which on `null` throws a `TypeError`. -/
def routeConstructFlags (methodsArg : Option (List String)) (optsStrict : Bool)
    (optsCaseSensitive : Bool) : Except String (Bool × CompileFlags) :=
  match methodsArg with
  | none => .error "TypeError: Cannot read property 'length' of null"
  | some ms =>
    let prefixMode := ms.isEmpty
    .ok (prefixMode,
      { sensitive := optsCaseSensitive
        strict := routeStrictFlag optsStrict prefixMode
        endAnchor := routeEndFlag prefixMode })

/-- Operation `router.mount` (`lib/router.js`): creates the route with `methods = null`.
Only the construction outcome is modelled here. -/
def mountConstructFlags (optsStrict : Bool) (optsCaseSensitive : Bool) :
    Except String (Bool × CompileFlags) :=
  routeConstructFlags none optsStrict optsCaseSensitive

/-! ## Route matching (`route.match` in `lib/route.js`) -/

/-- Parameter mapping of a match: JS stores it on an array object keyed by
parameter name (or by numeric index for positional captures); an `undefined`
capture stays `undefined` (`none`). -/
abbrev Params := List (String × Option String)

/-- A single route, restricted to the fields `route.match`, `route.url` and
`router.url` read.  `regexpMatch` abstracts `path.match(this.regexp)`: on
success it yields the matched prefix `matches[0]` and the capture list
`matches.slice(1)`. -/
structure RRoute where
  name : Option String := none
  methods : List String := []
  prefixMode : Bool := false
  regexpMatch : String → Option (String × List (Option String)) := fun _ => none
  params : List String := []
  pathTemplate : String := ""

/-- Expression `c ? safeDecodeURIComponent(c) : c` — a truthy (non-empty, defined) capture
is decoded; `undefined` and the empty string pass through unchanged. -/
def decodeCapture : Option String → Option String
  | none => none
  | some s => if s = "" then some s else some (safeDecodeURIComponent s)

/-- Named-parameter loop of `route.match`: pair each capture with the parameter
descriptor of the same index (captures beyond the descriptor list are skipped,
as the JS guard `if (this.params[i])` does). -/
def matchParamsNamed : List String → List (Option String) → Params
  | _, [] => []
  | [], _ :: _ => []
  | n :: ns, c :: cs => (n, decodeCapture c) :: matchParamsNamed ns cs

/-- Positional loop of `route.match`: key each capture by its index. -/
def matchParamsPos (captures : List (Option String)) : Params :=
  captures.enum.map fun ic => (toString ic.1, decodeCapture ic.2)

/-- Statement `path = path.substr(matches[0].length); if (!path.length || path[0] !== "/")
path = "/" + path;` — the unconsumed remainder is forced to begin with `/`. -/
def forceLeadingSlash (s : String) : String :=
  if s.data.head? = some '/' then s else "/" ++ s

/-- Result of a successful `route.match`. -/
structure MatchRec where
  params : Params
  path : String
deriving Repr, DecidableEq

/-- Operation `route.match` from `lib/route.js`. -/
def routeMatch (r : RRoute) (path : String) : Option MatchRec :=
  match r.regexpMatch path with
  | none => none
  | some (matched, captures) =>
    let params :=
      if r.params.length ≠ 0 then matchParamsNamed r.params captures
      else matchParamsPos captures
    some { params := params
           path := forceLeadingSlash (path.drop matched.length) }

/-! ## URL generation (`route.url` and `router.url`) -/

/-- First-occurrence string replacement, as JS `String.prototype.replace` with
a string pattern. -/
def replaceFirstAux (pat repl : List Char) : List Char → List Char
  | [] => []
  | c :: rest =>
    if pat.isPrefixOf (c :: rest) then repl ++ (c :: rest).drop pat.length
    else c :: replaceFirstAux pat repl rest

/-- Call `url.replace(pat, repl)` for a string pattern (first occurrence only). -/
def replaceFirst (s pat repl : String) : String :=
  String.mk (replaceFirstAux pat.data repl.data s.data)

/-- JS `String.prototype.split` with separator `"/"`, on the character list. -/
def splitSlashChars : List Char → List (List Char)
  | [] => [[]]
  | c :: rest =>
    let r := splitSlashChars rest
    if c = '/' then [] :: r
    else
      match r with
      | h :: t => (c :: h) :: t
      | [] => [[c]]

/-- JS `url.split("/")`. -/
def jsSplitSlash (s : String) : List String :=
  (splitSlashChars s.data).map String.mk

/-- Operation `route.url` (object-argument form): substitute `:key` for each supplied
binding in iteration order, then percent-encode every `/`-separated component
independently. -/
def routeUrl (r : RRoute) (args : List (String × String)) : String :=
  let url := args.foldl (fun u kv => replaceFirst u (":" ++ kv.1) kv.2) r.pathTemplate
  String.intercalate "/" ((jsSplitSlash url).map encodeURIComponent)

/-- Operation `router.route(name)`: linear scan in registration order, first name hit
wins (`route.name === name`; unnamed routes store `null` and never match). -/
def routerRoute (routes : List RRoute) (name : String) : Option RRoute :=
  routes.find? fun r => r.name = some name

/-- Operation `router.url(name, params)`: delegate to the named route, or return (not
throw) an `Error` value when the name is unknown. -/
def routerUrl (routes : List RRoute) (name : String) (args : List (String × String)) :
    Except String String :=
  match routerRoute routes name with
  | some r => .ok (routeUrl r args)
  | none => .error ("No route found for name: " ++ name)

/-! ## Parameter hooks (`route.param` in `lib/route.js`, `router.param` in
`lib/router.js`)

The middleware chain is modelled as the list of items `koa-compose` would
compose (composition of generator functions is external; the chain contents
and order are what the claims are about).  Hook functions are identified by a
numeric id, standing for the wrapped generator
`function *(next) { yield *fn.call(this, this.params[param], next) }`. -/

/-- An element of a route's composed middleware chain. -/
inductive MwItem where
  /-- One of the originally registered handler functions. -/
  | handler (id : Nat)
  /-- The wrapped parameter hook for `pname`. -/
  | hook (pname : String) (id : Nat)
deriving Repr, DecidableEq

/-- The hook-composition view of a route: `params` are the pattern's parameter
descriptors in URL-appearance order, `fnsParams` is `this.fns.params`,
`fnsMiddleware` is `this.fns.middleware`, and `middleware` the composed chain. -/
structure PRoute where
  params : List String
  fnsParams : List (String × Nat) := []
  fnsMiddleware : List MwItem
  middleware : List MwItem
deriving Repr, DecidableEq

/-- A freshly constructed route: no hooks, chain = the registered handlers. -/
def mkPRoute (params : List String) (handlers : List MwItem) : PRoute :=
  { params := params, fnsParams := [], fnsMiddleware := handlers, middleware := handlers }

/-- The hook prefix of the composed chain: one wrapped hook per pattern
parameter that has one, in URL-appearance order. -/
def hookChain (fns : List (String × Nat)) (params : List String) : List MwItem :=
  params.filterMap fun p => (assocLookup fns p).map (MwItem.hook p)

/-- Operation `route.param(param, fn)`: store the wrapped hook, then recompose
`middleware` as {hooks in URL-appearance order} ++ {original handler chain}. -/
def routeParam (r : PRoute) (pname : String) (id : Nat) : PRoute :=
  let fns := assocSet r.fnsParams pname id
  { r with fnsParams := fns
           middleware := hookChain fns r.params ++ r.fnsMiddleware }

/-- Router state relevant to hook registration. -/
structure PRouter where
  params : List (String × Nat) := []
  routes : List PRoute := []
deriving Repr, DecidableEq

/-- Operation `router.param(param, fn)`: store the hook and retroactively attach it to
every existing route. -/
def routerParam (R : PRouter) (pname : String) (id : Nat) : PRouter :=
  { params := assocSet R.params pname id
    routes := R.routes.map (routeParam · pname id) }

/-- Attachment loop shared by `router.register` and `router.mount`:
`Object.keys(this.params).forEach(param => route.param(param, this.params[param]))`. -/
def attachHooks (stored : List (String × Nat)) (r : PRoute) : PRoute :=
  stored.foldl (fun r kv => routeParam r kv.1 kv.2) r

/-- Route insertion as `router.register` / `router.mount` perform it: attach
all currently stored hooks to the new route, then append it. -/
def routerAddRoute (R : PRouter) (r : PRoute) : PRouter :=
  { R with routes := R.routes ++ [attachHooks R.params r] }

/-! ## Dispatch (`router.middleware` in `lib/router.js`)

The per-request state machine.  A koa context is reduced to the fields the
router reads or writes; the response sink (`ctx.res.statusCode`,
`ctx.response._explicitStatus`, `ctx.set`) is folded into the same record.
A route's composed middleware is abstracted by its possible interaction
patterns with the continuation generator it is handed (`yield *middleware.call
(context, next())`): it can return without running the continuation, raise,
run the continuation and return, or run it and then raise — each with
context effects before/after.  A generator can be delegated to at most once,
which the shape of `Mw` encodes. -/

/-- The koa request context as the router sees it. -/
structure Ctx where
  path : String
  method : String
  params : Params := []
  statusCode : Nat := 404
  explicitStatus : Bool := false
  headers : List (String × String) := []
deriving Repr, DecidableEq

/-- Operation `ctx.set(field, value)`. -/
def setHeader (c : Ctx) (k v : String) : Ctx :=
  { c with headers := assocSet c.headers k v }

/-- Read back a response header. -/
def headerGet (c : Ctx) (k : String) : Option String :=
  assocLookup c.headers k

/-- Interaction script of one route's composed middleware. -/
inductive Mw where
  /-- Apply `eff` and return without running the continuation. -/
  | ret (eff : Ctx → Ctx)
  /-- Apply `eff` and raise `msg` without running the continuation. -/
  | throw (eff : Ctx → Ctx) (msg : String)
  /-- Apply `pre`, run the continuation, apply `post`, return. -/
  | callNext (pre post : Ctx → Ctx)
  /-- Apply `pre`, run the continuation, then raise `msg`. -/
  | callNextThrow (pre : Ctx → Ctx) (msg : String)

/-- Whether the script runs its continuation. -/
def Mw.callsNext : Mw → Bool
  | .ret _ => false
  | .throw _ _ => false
  | .callNext _ _ => true
  | .callNextThrow _ _ => true

/-- The downstream continuation `done`: an effect on the context plus an
optional raised error. -/
structure Done where
  eff : Ctx → Ctx
  err : Option String := none

/-- A match-phase candidate: the matched route's dispatch-relevant fields
(`route.methods`, `route.asPrefix`, its composed middleware) together with the
match record's rescoped `path` and captured `params`. -/
structure Cand where
  methods : List String
  prefixMode : Bool
  mw : Mw
  path : String
  params : Params

/-- Walk-phase state: the context plus the dispatch-local mutables
(`called`, `methodsAvailable`) and an instrumentation counter for invocations
of the downstream continuation. -/
structure St where
  ctx : Ctx
  called : Bool := false
  methodsAvailable : List String := []
  doneCount : Nat := 0

/-- Assignment `methodsAvailable[m] = true`: record a method, keeping first-insertion
order and ignoring duplicates (JS object key semantics). -/
def insertAvail (l : List String) (m : String) : List String :=
  if l.contains m then l else l ++ [m]

/-- Record all of a route's methods. -/
def addAvailable (ms : List String) (l : List String) : List String :=
  ms.foldl insertAvail l

/-- Function `mergeParams(a, b)` from `lib/router.js`: copy `a`, then overwrite with
`b`'s bindings. -/
def mergeParams (a b : Params) : Params :=
  b.foldl (fun acc kv => assocSet acc kv.1 kv.2) a

/-- Test `route.methods.indexOf(method) >= 0 || route.asPrefix`. -/
def shouldCall (method : String) (c : Cand) : Bool :=
  c.methods.contains method || c.prefixMode

/-- Full applicability test of the walk:
`shouldCallMiddleware || (method === "HEAD" && route.methods.indexOf("GET") >= 0)`. -/
def applicableB (method : String) (c : Cand) : Bool :=
  shouldCall method c || (method == "HEAD" && c.methods.contains "GET")

/-- Effect of `yield *done` plus the instrumentation counter. -/
def runDone (d : Done) (st : St) : St × Option String :=
  ({ st with ctx := d.eff st.ctx, doneCount := st.doneCount + 1 }, d.err)

/-- The fallback-synthesis block guarded by
`if (!called && !context.response._explicitStatus)`: write the status straight
to `res.statusCode` (204 for OPTIONS else 405), set `Allow`, then downgrade to
501 when the method was never registered on this router. -/
def synthesize (routerMethods : List String) (st : St) : St :=
  if !st.called && !st.ctx.explicitStatus then
    let c := st.ctx
    let c := { c with statusCode := if c.method = "OPTIONS" then 204 else 405 }
    let c := setHeader c "Allow" (String.intercalate ", " st.methodsAvailable)
    let c := if routerMethods.contains c.method then c
             else { c with statusCode := 501 }
    { st with ctx := c }
  else st

/-- Restore the saved `path`/`params` view. -/
def restoreCtx (c : Ctx) (prevPath : String) (prevParams : Params) : Ctx :=
  { c with path := prevPath, params := prevParams }

/-- Restoration of a walk-state to the `path`/`params` saved on frame entry
(`context.params = prevParams; context.path = prevPathname`). -/
def restoreSt (x : St) (st : St) : St :=
  { x with ctx := restoreCtx x.ctx st.ctx.path st.ctx.params }

/-- Cursor-exhausted step of the walk: restore the request-level view, defer
downstream, then (when the downstream generator returned normally) synthesize
a fallback and restore the frame-entry view.  When `done` raises, the error
propagates immediately: the statements after `yield *done` never run. -/
def walkNil (rm : List String) (d : Done) (pathname : String) (params0 : Params)
    (st : St) : St × Option String :=
  match runDone d { st with ctx := { st.ctx with path := pathname, params := params0 } } with
  | (st1, some e) => (st1, some e)
  | (st1, none) =>
    (restoreSt (synthesize rm st1) st, none)

/-- Accumulation of `methodsAvailable` for an inapplicable candidate of an
`OPTIONS` request. -/
def availStep (method : String) (c : Cand) (st : St) : St :=
  if !shouldCall method c && method == "OPTIONS"
  then { st with methodsAvailable := addAvailable c.methods st.methodsAvailable }
  else st

/-- Rescoping before invoking a candidate's middleware: set `called`, replace
`path` with the match remainder and `params` with the captured (or merged)
parameters. -/
def rescope (mergeP : Bool) (params0 : Params) (c : Cand) (st : St) : St :=
  { st with
    called := true,
    ctx := { st.ctx with
             path := c.path,
             params := if mergeP then mergeParams params0 c.params else c.params } }

/-- The generator `function *next()` of `router.middleware`, recursing over the
remaining candidate list.  `pathname`, `params0` and `method` are the values
the dispatch captured at entry.  The second component of the result is the
error propagating out of the generator, if any: note that the restoration
statements after a `yield *` are **not** reached when the delegated generator
raises (there is no try/finally in the source). -/
def walk (rm : List String) (mergeP : Bool) (d : Done) (pathname : String)
    (params0 : Params) (method : String) : List Cand → St → St × Option String
  | [], st => walkNil rm d pathname params0 st
  | c :: rest, st =>
    if applicableB method c then
      let stc := rescope mergeP params0 c (availStep method c st)
      match c.mw with
      | .ret eff =>
        (restoreSt { stc with ctx := eff stc.ctx } st, none)
      | .throw eff msg =>
        ({ stc with ctx := eff stc.ctx }, some msg)
      | .callNext pre post =>
        match walk rm mergeP d pathname params0 method rest { stc with ctx := pre stc.ctx } with
        | (st1, none) => (restoreSt { st1 with ctx := post st1.ctx } st, none)
        | (st1, some e) => (st1, some e)
      | .callNextThrow pre msg =>
        match walk rm mergeP d pathname params0 method rest { stc with ctx := pre stc.ctx } with
        | (st1, none) => (st1, some msg)
        | (st1, some e) => (st1, some e)
    else
      walk rm mergeP d pathname params0 method rest (availStep method c st)

/-- The dispatch-relevant router state: accumulated accepted methods, the
`mergeParams` option, and the match phase (`router.match`) as a function from
the request path to the ordered candidate list (empty = `null`). -/
structure RouterD where
  methods : List String
  mergeParams : Bool := false
  matchFn : String → List Cand

/-- The body of the middleware returned by `router.middleware()`: match the
path; if nothing matched, immediately delegate downstream; otherwise run the
walk from the first candidate. -/
def dispatch (R : RouterD) (d : Done) (ctx0 : Ctx) : St × Option String :=
  let st0 : St := { ctx := ctx0 }
  match R.matchFn ctx0.path with
  | [] => runDone d st0
  | c :: rest =>
    walk R.methods R.mergeParams d ctx0.path ctx0.params ctx0.method (c :: rest) st0

/-- Glue between the matching model and the dispatch model: what `router.match`
produces for one route (`matched.route = routes[i]` plus the match record). -/
def toCand (r : RRoute) (mw : Mw) (m : MatchRec) : Cand :=
  { methods := r.methods, prefixMode := r.prefixMode, mw := mw
    path := m.path, params := m.params }

/-- Operation `router.match(pathname)`: collect the match records of all matching routes
in registration order. -/
def routerMatchCands (routes : List (RRoute × Mw)) (pathname : String) : List Cand :=
  routes.filterMap fun rm => (routeMatch rm.1 pathname).map (toCand rm.1 rm.2)

/-! ## Accepted-method accumulation (`Router` constructor and `router.register`) -/

/-- Initialization `this.methods = ["OPTIONS"]` in the `Router` constructor. -/
def routerInitMethods : List String := ["OPTIONS"]

/-- The loop at the end of `router.register`:
`route.methods.forEach(m => { if (this.methods.indexOf(m) < 0) this.methods.push(m) })`. -/
def registerMethods (routerMethods : List String) (routeMethods : List String) : List String :=
  routeMethods.foldl (fun acc m => if acc.contains m then acc else acc ++ [m]) routerMethods

/-- Accumulated accepted-method set after a sequence of `register` calls
(mount contributes nothing to `this.methods`). -/
def accMethods (regs : List (List String)) : List String :=
  regs.foldl registerMethods routerInitMethods

/-! ## Demonstration instances used by witnesses and counterexamples -/

/-- Compiled matcher of a capture-free literal pattern such as `/user`
(strict, end-anchored): the whole path is consumed, no captures. -/
def litMatcher (lit : String) : String → Option (String × List (Option String)) :=
  fun p => if p = lit then some (lit, []) else none

/-- The route `GET /user`. -/
def userGetRoute : RRoute :=
  { methods := ["GET"], regexpMatch := litMatcher "/user", pathTemplate := "/user" }

/-- The route `POST /user`. -/
def userPostRoute : RRoute :=
  { methods := ["POST"], regexpMatch := litMatcher "/user", pathTemplate := "/user" }

/-- Named route `/:category/:title` called `books`, for URL generation. -/
def booksRoute : RRoute :=
  { name := some "books", methods := ["GET"], params := ["category", "title"]
    pathTemplate := "/:category/:title" }

/-! ## C7 — matched remainder is forced to a segment boundary -/

theorem forceLeadingSlash_head (s : String) :
    (forceLeadingSlash s).data.head? = some '/' := by
  unfold forceLeadingSlash
  by_cases h : s.data.head? = some '/'
  · simp [h]
  · have hd : ("/" : String).data = ['/'] := rfl
    simp [h, String.data_append, hd]

/-- C7: for every path on which a Route's `match` succeeds, the remaining path
suffix of the returned match record (the input path minus the consumed matched
prefix) is forced to start with `/` or be exactly empty. -/
theorem C7_match_suffix_boundary (r : RRoute) (p : String) (rec : MatchRec)
    (h : routeMatch r p = some rec) :
    rec.path.data.head? = some '/' ∨ rec.path = "" := by
  left
  unfold routeMatch at h
  cases hm : r.regexpMatch p with
  | none => rw [hm] at h; exact absurd h (by simp)
  | some mc =>
    rw [hm] at h
    obtain ⟨matched, captures⟩ := mc
    simp only [Option.some.injEq] at h
    rw [← h]
    exact forceLeadingSlash_head _

/-- C7 witness: `GET /user` matched against `/user` leaves the remainder `/`,
which satisfies the boundary property. -/
theorem C7_witness :
    routeMatch userGetRoute "/user" = some { params := [], path := "/" } ∧
    (({ params := [], path := "/" } : MatchRec).path.data.head? = some '/' ∨
      ({ params := [], path := "/" } : MatchRec).path = "") :=
  ⟨by decide, C7_match_suffix_boundary userGetRoute "/user" _ (by decide)⟩

/-! ## C8 — decode leniency never fails a match -/

/-- C8: percent-decoding of captures never aborts a match: a match succeeds
exactly when the compiled regular expression matches, independently of any
decode failure; when `decodeURIComponent` fails, `safeDecodeURIComponent`
keeps the raw text, and the raw captured text appears verbatim in the
parameter mapping. -/
theorem C8_decode_leniency :
    (∀ (r : RRoute) (p : String), (routeMatch r p).isSome = (r.regexpMatch p).isSome) ∧
    (∀ t : String, decodeURIComponent t = none → safeDecodeURIComponent t = t) ∧
    (∀ (n c : String), decodeURIComponent c = none → c ≠ "" →
      matchParamsNamed [n] [some c] = [(n, some c)]) := by
  refine ⟨fun r p => ?_, fun t h => ?_, fun n c h hne => ?_⟩
  · unfold routeMatch
    cases hm : r.regexpMatch p with
    | none => simp
    | some mc => obtain ⟨m, cs⟩ := mc; simp
  · unfold safeDecodeURIComponent
    rw [h]
  · show (n, decodeCapture (some c)) :: matchParamsNamed [] [] = [(n, some c)]
    have h1 : decodeCapture (some c) = some (safeDecodeURIComponent c) := by
      show (if c = "" then some c else some (safeDecodeURIComponent c)) = _
      rw [if_neg hne]
    have h2 : safeDecodeURIComponent c = c := by
      unfold safeDecodeURIComponent
      rw [h]
    rw [h1, h2]
    rfl

/-- C8 witness: `%zz` is malformed, decoding fails, and the raw text is kept
both by `safeDecodeURIComponent` and in the parameter mapping. -/
theorem C8_witness :
    decodeURIComponent "%zz" = none ∧ ("%zz" : String) ≠ "" ∧
    safeDecodeURIComponent "%zz" = "%zz" ∧
    matchParamsNamed ["id"] [some "%zz"] = [("id", some "%zz")] :=
  ⟨by decide, by decide,
   C8_decode_leniency.2.1 "%zz" (by decide),
   C8_decode_leniency.2.2 "id" "%zz" (by decide) (by decide)⟩

/-! ## C9 — URL generation by name never raises -/

/-- C9: `router.url` is a total function into string-or-error: an unknown name
yields an explicit `Error` value; a known name delegates to the route's URL
builder, which substitutes each `:name` placeholder and percent-encodes every
resulting path segment independently, so the `books` route yields
`/programming/how%20to%20node`. -/
theorem C9_url_generation :
    (∀ (routes : List RRoute) (name : String) (args : List (String × String)),
      routerRoute routes name = none →
        routerUrl routes name args = .error ("No route found for name: " ++ name)) ∧
    (∀ (routes : List RRoute) (name : String) (args : List (String × String)) (r : RRoute),
      routerRoute routes name = some r →
        routerUrl routes name args = .ok (routeUrl r args)) ∧
    routerUrl [booksRoute] "books"
        [("category", "programming"), ("title", "how to node")] =
      .ok "/programming/how%20to%20node" := by
  refine ⟨fun routes name args h => ?_, fun routes name args r h => ?_, ?_⟩
  · unfold routerUrl
    rw [h]
  · unfold routerUrl
    rw [h]
  · rfl

/-- C9 witness: the unknown name `missing` produces the error value. -/
theorem C9_witness :
    routerRoute [] "missing" = none ∧
    routerUrl [] "missing" [] = .error "No route found for name: missing" :=
  ⟨rfl, C9_url_generation.1 [] "missing" [] rfl⟩

/-! ## C4 — compile flags of mounted (prefix) patterns: code bug

The repository's own tests (`should unable strict mode in default except
mounting`, `cannot override strict mode for mounting`) expect mount patterns
to be compiled strict regardless of the global option and ordinary routes to
be slash-insensitive by default.  The code does the opposite — the flag it
hands the compiler is `opts.strict || !asPrefix` instead of
`opts.strict || asPrefix` — and, worse, `router.mount` passes `null` as the
`methods` array, on which the constructor's `methods.length` read throws. -/

/-- C4: evaluating the constructor at the inputs `mount` produces: mounting
crashes with a `TypeError` (so no pattern is ever compiled through it), a
prefix-mode construction under default options is compiled NON-strict (the
claim asserts strict regardless of the global option), and a non-prefix route
is compiled strict even with `strict: false`; only the end-anchoring part of
the claim holds. -/
theorem C4_mount_compile_flags :
    mountConstructFlags false false =
      .error "TypeError: Cannot read property 'length' of null" ∧
    routeConstructFlags (some []) false false =
      .ok (true, { sensitive := false, strict := false, endAnchor := false }) ∧
    routeConstructFlags (some ["GET"]) false false =
      .ok (false, { sensitive := false, strict := true, endAnchor := true }) :=
  ⟨rfl, rfl, rfl⟩

/-! ## C10 — `OPTIONS` is always an accepted method -/

theorem mem_registerMethods (l ms : List String) (x : String) (h : x ∈ l) :
    x ∈ registerMethods l ms := by
  induction ms generalizing l with
  | nil => exact h
  | cons m rest ih =>
    unfold registerMethods
    simp only [List.foldl_cons]
    by_cases hc : l.contains m
    · rw [if_pos hc]
      exact ih l h
    · rw [if_neg hc]
      exact ih _ (by simp [h])

/-- C10: the accumulated accepted-method set of any router contains `OPTIONS`
(it is initialized to `["OPTIONS"]` and registration only ever adds), so the
fallback-synthesis path answers an `OPTIONS` request with 204 and can never
downgrade it to 501. -/
theorem C10_options_never_501 :
    (∀ regs : List (List String), "OPTIONS" ∈ accMethods regs) ∧
    (∀ (l ms : List String) (x : String), x ∈ l → x ∈ registerMethods l ms) ∧
    (∀ (regs : List (List String)) (st : St),
      st.called = false → st.ctx.explicitStatus = false → st.ctx.method = "OPTIONS" →
      (synthesize (accMethods regs) st).ctx.statusCode = 204) := by
  have hmem : ∀ regs : List (List String), "OPTIONS" ∈ accMethods regs := by
    intro regs
    unfold accMethods
    have : ∀ (rs : List (List String)) (l : List String), "OPTIONS" ∈ l →
        "OPTIONS" ∈ rs.foldl registerMethods l := by
      intro rs
      induction rs with
      | nil => intro l h; exact h
      | cons r rest ih =>
        intro l h
        exact ih _ (mem_registerMethods l r _ h)
    exact this regs routerInitMethods (by simp [routerInitMethods])
  refine ⟨hmem, mem_registerMethods, fun regs st hc he hm => ?_⟩
  unfold synthesize setHeader
  rw [hc, he]
  simp [hm, hmem regs]

/-- C10 witness: after registering `GET` and `POST`, an `OPTIONS` fallback is
synthesized as 204. -/
theorem C10_witness :
    "OPTIONS" ∈ accMethods [["GET"], ["POST"]] ∧
    (synthesize (accMethods [["GET"], ["POST"]])
        { ctx := { path := "/user", method := "OPTIONS" } }).ctx.statusCode = 204 :=
  ⟨C10_options_never_501.1 [["GET"], ["POST"]],
   C10_options_never_501.2.2 [["GET"], ["POST"]]
     { ctx := { path := "/user", method := "OPTIONS" } } rfl rfl rfl⟩

/-! ## C6 — parameter hooks: retroactive attachment and URL-appearance order -/

theorem hookChain_congr (f1 f2 : List (String × Nat)) (params : List String)
    (h : ∀ p ∈ params, assocLookup f1 p = assocLookup f2 p) :
    hookChain f1 params = hookChain f2 params := by
  induction params with
  | nil => rfl
  | cons p ps ih =>
    unfold hookChain
    simp only [List.filterMap_cons]
    rw [h p (by simp)]
    have := ih fun q hq => h q (by simp [hq])
    unfold hookChain at this
    rw [this]

theorem assocLookup_swap {a b : String} (hab : a ≠ b) (m : List (String × Nat))
    (x y : Nat) (p : String) :
    assocLookup (assocSet (assocSet m a x) b y) p =
      assocLookup (assocSet (assocSet m b y) a x) p := by
  rw [assocLookup_assocSet, assocLookup_assocSet, assocLookup_assocSet, assocLookup_assocSet]
  by_cases hpb : p = b
  · by_cases hpa : p = a
    · exact absurd (hpa.symm.trans hpb) hab
    · simp [hpb, hpa, Ne.symm hab]
  · by_cases hpa : p = a
    · simp [hpb, hpa, hab]
    · simp [hpb, hpa]

/-- Demonstration route for hook ordering: pattern `/:first/users/:user` with
one registered handler. -/
def firstUserRoute : PRoute := mkPRoute ["first", "user"] [.handler 0]

/-- C6: `router.param` stores the hook and retroactively rewrites every
existing route (routes registered afterward receive the stored hooks at
registration); within a route the composed chain is {hooks in URL-appearance
order} ++ {original handler chain}, independent of the order hooks were
registered, and hooks for names absent from the pattern are omitted from the
chain (concretely: registering the `user` hook before the `first` hook on
`/:first/users/:user` still runs `first` before `user`). -/
theorem C6_param_hooks :
    (∀ (R : PRouter) (name : String) (id : Nat) (r : PRoute), r ∈ R.routes →
      routeParam r name id ∈ (routerParam R name id).routes) ∧
    (∀ (R : PRouter) (name : String) (id : Nat),
      (routerParam R name id).params = assocSet R.params name id) ∧
    (∀ (R : PRouter) (r : PRoute),
      (routerAddRoute R r).routes = R.routes ++ [attachHooks R.params r]) ∧
    (∀ (r : PRoute) (name : String) (id : Nat),
      (routeParam r name id).middleware =
        hookChain (assocSet r.fnsParams name id) r.params ++ r.fnsMiddleware) ∧
    (∀ (r : PRoute) (a : String) (fa : Nat) (b : String) (fb : Nat), a ≠ b →
      (routeParam (routeParam r a fa) b fb).middleware =
        (routeParam (routeParam r b fb) a fa).middleware) ∧
    (∀ (params : List String) (handlers : List MwItem) (name : String) (id : Nat),
      name ∉ params →
      (routeParam (mkPRoute params handlers) name id).middleware = handlers) ∧
    (routeParam (routeParam firstUserRoute "user" 2) "first" 1).middleware =
      [.hook "first" 1, .hook "user" 2, .handler 0] := by
  refine ⟨?_, fun R name id => rfl, fun R r => rfl, fun r name id => rfl, ?_, ?_, by decide⟩
  · intro R name id r hr
    unfold routerParam
    simpa using ⟨r, hr, rfl⟩
  · intro r a fa b fb hab
    show hookChain (assocSet (assocSet r.fnsParams a fa) b fb) r.params ++ r.fnsMiddleware =
      hookChain (assocSet (assocSet r.fnsParams b fb) a fa) r.params ++ r.fnsMiddleware
    rw [hookChain_congr _ _ _ (fun p _ => assocLookup_swap hab r.fnsParams fa fb p)]
  · intro params handlers name id hni
    show hookChain (assocSet [] name id) params ++ handlers = handlers
    have : hookChain (assocSet [] name id) params = hookChain [] params := by
      apply hookChain_congr
      intro p hp
      rw [assocLookup_assocSet]
      rw [if_neg (fun hpn : p = name => hni (hpn ▸ hp))]
    rw [this]
    have hnil : hookChain [] params = [] := by
      induction params with
      | nil => rfl
      | cons q qs ih =>
        unfold hookChain
        simp only [List.filterMap_cons]
        unfold hookChain at ih
        simp [assocLookup, ih]
    rw [hnil]
    rfl

/-- C6 witness: on `/:first/users/:user` the chain orders the `first` hook
before the `user` hook although `user` was registered first, and hooks for
distinct names commute. -/
theorem C6_witness :
    ("a" : String) ≠ "b" ∧
    (routeParam (routeParam firstUserRoute "a" 7) "b" 8).middleware =
      (routeParam (routeParam firstUserRoute "b" 8) "a" 7).middleware ∧
    ("nope" : String) ∉ ["first", "user"] ∧
    (routeParam (mkPRoute ["first", "user"] [.handler 0]) "nope" 9).middleware =
      [MwItem.handler 0] :=
  ⟨by decide,
   C6_param_hooks.2.2.2.2.1 firstUserRoute "a" 7 "b" 8 (by decide),
   by decide,
   C6_param_hooks.2.2.2.2.2.1 ["first", "user"] [.handler 0] "nope" 9 (by decide)⟩

/-! ## Dispatch demo instances -/

/-- A downstream continuation that does nothing and returns normally. -/
def doneId : Done := { eff := id }

/-- Request context for `DELETE /user`. -/
def ctxDelete : Ctx := { path := "/user", method := "DELETE" }

/-- Request context for `OPTIONS /user`. -/
def ctxOptionsReq : Ctx := { path := "/user", method := "OPTIONS" }

/-- Request context for `GET /a`. -/
def ctxGetA : Ctx := { path := "/a", method := "GET" }

/-- Router with `GET /user` and `POST /user` registered (handlers irrelevant
for the requests exercised, which never invoke them). -/
def routerGp : RouterD :=
  { methods := ["OPTIONS", "GET", "POST"]
    matchFn := routerMatchCands [(userGetRoute, .ret id), (userPostRoute, .ret id)] }

/-- Compiled matcher of `/:id` (end-anchored), shown at the request `/a`:
the whole path is consumed and `a` is captured. -/
def idParamRoute : RRoute :=
  { methods := ["GET"], params := ["id"], pathTemplate := "/:id"
    regexpMatch := fun p => if p = "/a" then some ("/a", [some "a"]) else none }

/-- Router whose matched route's middleware raises `boom`. -/
def routerThrow : RouterD :=
  { methods := ["OPTIONS", "GET"]
    matchFn := routerMatchCands [(idParamRoute, .throw id "boom")] }

/-- Router whose matched route's middleware returns without calling its
continuation. -/
def routerNoNext : RouterD :=
  { methods := ["OPTIONS", "GET"]
    matchFn := routerMatchCands [(idParamRoute, .ret id)] }

/-- Router whose matched route's middleware calls its continuation. -/
def routerCallsNext : RouterD :=
  { methods := ["OPTIONS", "GET"]
    matchFn := routerMatchCands [(idParamRoute, .callNext id id)] }

/-! ## Dispatch helper lemmas -/

/-- Under an applicable candidate the `methodsAvailable` guard is off (an
applicable `OPTIONS` request satisfies `shouldCall`, and the `HEAD` fallback
implies the method is `HEAD`). -/
theorem avail_guard_off {m : String} {c : Cand} (h : applicableB m c = true) :
    (!shouldCall m c && m == "OPTIONS") = false := by
  cases hsc : shouldCall m c with
  | true => simp
  | false =>
    unfold applicableB at h
    rw [hsc] at h
    simp only [Bool.false_or, Bool.and_eq_true, beq_iff_eq] at h
    simp [h.1]

/-- Closed form of the cursor-exhausted step when the downstream continuation
returns normally. -/
theorem walkNil_eval (rm : List String) (d : Done) (pn : String)
    (p0 : Params) (st : St) (hdone : d.err = none) :
    walkNil rm d pn p0 st =
      (restoreSt
        (synthesize rm
          { st with ctx := d.eff { st.ctx with path := pn, params := p0 },
                    doneCount := st.doneCount + 1 })
        st, none) := by
  simp only [walkNil, runDone, hdone]

/-- Accumulated `methodsAvailable` over a candidate list. -/
def availAfter (m : String) (l : List Cand) (acc : List String) : List String :=
  l.foldl
    (fun a c => if !shouldCall m c && m == "OPTIONS" then addAvailable c.methods a else a)
    acc

theorem availAfter_cons (m : String) (c : Cand) (l : List Cand) (acc : List String) :
    availAfter m (c :: l) acc =
      availAfter m l
        (if !shouldCall m c && m == "OPTIONS" then addAvailable c.methods acc else acc) := rfl

theorem walk_skip_all (rm : List String) (mp : Bool) (d : Done) (pn : String)
    (p0 : Params) (m : String) :
    ∀ (l : List Cand) (st : St), (∀ c ∈ l, applicableB m c = false) →
      walk rm mp d pn p0 m l st =
        walkNil rm d pn p0
          { st with methodsAvailable := availAfter m l st.methodsAvailable } := by
  intro l
  induction l with
  | nil => intro st _; rfl
  | cons c rest ih =>
    intro st h
    have hc : applicableB m c = false := h c (by simp)
    show (if applicableB m c = true then _ else
        walk rm mp d pn p0 m rest (availStep m c st)) = _
    rw [if_neg (by rw [hc]; exact Bool.false_ne_true)]
    rw [ih _ (fun c' hc' => h c' (by simp [hc']))]
    congr 1
    rw [availAfter_cons]
    unfold availStep
    by_cases hg : (!shouldCall m c && m == "OPTIONS") = true
    · rw [if_pos hg, if_pos hg]
    · rw [if_neg hg, if_neg hg]

theorem availAfter_not_options {m : String} (hm : m ≠ "OPTIONS") :
    ∀ (l : List Cand) (acc : List String), availAfter m l acc = acc := by
  intro l
  induction l with
  | nil => intro acc; rfl
  | cons c rest ih =>
    intro acc
    rw [availAfter_cons,
      if_neg (show ¬((!shouldCall m c && m == "OPTIONS") = true) by simp [hm])]
    exact ih acc

theorem availAfter_options_inapp :
    ∀ (l : List Cand) (acc : List String), (∀ c ∈ l, applicableB "OPTIONS" c = false) →
      availAfter "OPTIONS" l acc = l.foldl (fun a c => addAvailable c.methods a) acc := by
  intro l
  induction l with
  | nil => intro acc _; rfl
  | cons c rest ih =>
    intro acc h
    have hc : applicableB "OPTIONS" c = false := h c (by simp)
    have hsc : shouldCall "OPTIONS" c = false := by
      unfold applicableB at hc
      exact (Bool.or_eq_false_iff.mp hc).1
    rw [availAfter_cons, if_pos (by simp [hsc])]
    simp only [List.foldl_cons]
    exact ih _ (fun c' hc' => h c' (by simp [hc']))

/-- Lemma: `synthesize` writes the fallback status: 204 for `OPTIONS` (which is
always accepted), else 405 for an accepted method, else 501. -/
theorem synthesize_statusCode (rm : List String) (st : St) (hc : st.called = false)
    (he : st.ctx.explicitStatus = false) (hopt : "OPTIONS" ∈ rm) :
    (synthesize rm st).ctx.statusCode =
      (if st.ctx.method = "OPTIONS" then 204
       else if st.ctx.method ∈ rm then 405
       else 501) := by
  unfold synthesize setHeader
  rw [hc, he]
  by_cases hm : st.ctx.method = "OPTIONS"
  · simp [hm, hopt]
  · by_cases hmem : st.ctx.method ∈ rm
    · simp [hm, hmem]
    · simp [hm, hmem]

/-- Lemma: `synthesize` sets the `Allow` header to the joined accumulator. -/
theorem synthesize_allow (rm : List String) (st : St) (hc : st.called = false)
    (he : st.ctx.explicitStatus = false) :
    headerGet (synthesize rm st).ctx "Allow" =
      some (String.intercalate ", " st.methodsAvailable) := by
  unfold synthesize setHeader headerGet
  rw [hc, he]
  simp only [Bool.not_false, Bool.and_self, if_true]
  split
  · simp [assocLookup_assocSet]
  · simp [assocLookup_assocSet]

/-! ## C2 — fallback status synthesis -/

/-- Concrete candidates produced by `router.match` for `/user` on the
`GET`/`POST` demo router. -/
def candUserGet : Cand := toCand userGetRoute (.ret id) { params := [], path := "/" }

/-- Concrete `POST /user` candidate. -/
def candUserPost : Cand := toCand userPostRoute (.ret id) { params := [], path := "/" }

/-- C2: when the match phase produced candidates but none was applicable (so
no middleware ran and `called` stayed false) and the downstream collaborator
neither raised nor set an explicit status, the dispatch returns normally and
synthesizes: 204 for `OPTIONS`, else 405 when the method is in the router's
accumulated accepted-method set, else 501. -/
theorem C2_fallback_status (R : RouterD) (d : Done) (ctx0 : Ctx) (c0 : Cand)
    (cs : List Cand)
    (hmatch : R.matchFn ctx0.path = c0 :: cs)
    (hinapp : ∀ c ∈ c0 :: cs, applicableB ctx0.method c = false)
    (hdone : d.err = none)
    (hexp : (d.eff ctx0).explicitStatus = false)
    (hmeth : (d.eff ctx0).method = ctx0.method)
    (hopt : "OPTIONS" ∈ R.methods) :
    (dispatch R d ctx0).2 = none ∧
    (dispatch R d ctx0).1.ctx.statusCode =
      (if ctx0.method = "OPTIONS" then 204
       else if ctx0.method ∈ R.methods then 405
       else 501) := by
  have hdisp : dispatch R d ctx0 =
      walk R.methods R.mergeParams d ctx0.path ctx0.params ctx0.method (c0 :: cs)
        { ctx := ctx0 } := by
    unfold dispatch
    rw [hmatch]
  have hskip := walk_skip_all R.methods R.mergeParams d ctx0.path ctx0.params ctx0.method
      (c0 :: cs) { ctx := ctx0 } hinapp
  have heval := walkNil_eval R.methods d ctx0.path ctx0.params
      { ctx := ctx0, methodsAvailable := availAfter ctx0.method (c0 :: cs) [] } hdone
  rw [hdisp, hskip]
  constructor
  · show (walkNil R.methods d ctx0.path ctx0.params
        { ctx := ctx0, methodsAvailable := availAfter ctx0.method (c0 :: cs) [] }).2 = none
    rw [heval]
  · show (walkNil R.methods d ctx0.path ctx0.params
        { ctx := ctx0,
          methodsAvailable := availAfter ctx0.method (c0 :: cs) [] }).1.ctx.statusCode = _
    rw [heval]
    have hsyn := synthesize_statusCode R.methods
        { ctx := d.eff ctx0, called := false,
          methodsAvailable := availAfter ctx0.method (c0 :: cs) [], doneCount := 1 }
        rfl hexp hopt
    show (synthesize R.methods
        { ctx := d.eff ctx0, called := false,
          methodsAvailable := availAfter ctx0.method (c0 :: cs) [],
          doneCount := 1 }).ctx.statusCode = _
    rw [hsyn]
    show (if (d.eff ctx0).method = "OPTIONS" then 204
          else if (d.eff ctx0).method ∈ R.methods then 405
          else 501) = _
    rw [hmeth]

/-- C2 witness: `DELETE /user` with only `GET`/`POST` registered synthesizes
the fallback formula (which evaluates to 501 here). -/
theorem C2_witness :
    ("OPTIONS" : String) ∈ routerGp.methods ∧
    (dispatch routerGp doneId ctxDelete).2 = none ∧
    (dispatch routerGp doneId ctxDelete).1.ctx.statusCode =
      (if ctxDelete.method = "OPTIONS" then 204
       else if ctxDelete.method ∈ routerGp.methods then 405
       else 501) :=
  ⟨by decide,
   (C2_fallback_status routerGp doneId ctxDelete candUserGet [candUserPost]
      (by rfl) (by decide) rfl rfl rfl (by decide)).1,
   (C2_fallback_status routerGp doneId ctxDelete candUserGet [candUserPost]
      (by rfl) (by decide) rfl rfl rfl (by decide)).2⟩

/-! ## C3 — the `Allow` header -/

/-- C3 counterexample: with `GET /user` and `POST /user` registered,
`DELETE /user` does NOT yield 405 with `Allow: GET, POST` — the code answers
501 (DELETE is unregistered, and the `methodsAvailable` accumulator is only
populated for OPTIONS requests) with an empty `Allow` header. -/
theorem C3_counterexample :
    (dispatch routerGp doneId ctxDelete).1.ctx.statusCode = 501 ∧
    (dispatch routerGp doneId ctxDelete).1.ctx.statusCode ≠ 405 ∧
    headerGet (dispatch routerGp doneId ctxDelete).1.ctx "Allow" = some "" ∧
    headerGet (dispatch routerGp doneId ctxDelete).1.ctx "Allow" ≠ some "GET, POST" := by
  decide

/-- C3 (amended): on the fallback path the `Allow` header is set to the joined
`methodsAvailable` accumulator, which is populated only for `OPTIONS`
requests: a non-`OPTIONS` fallback (405/501) carries an empty `Allow`, while a
synthesized `OPTIONS` 204 carries the union of the methods of the candidates
that matched the path but not the method. -/
theorem C3_allow_header (R : RouterD) (d : Done) (ctx0 : Ctx) (c0 : Cand)
    (cs : List Cand)
    (hmatch : R.matchFn ctx0.path = c0 :: cs)
    (hinapp : ∀ c ∈ c0 :: cs, applicableB ctx0.method c = false)
    (hdone : d.err = none)
    (hexp : (d.eff ctx0).explicitStatus = false)
    (hmeth : (d.eff ctx0).method = ctx0.method)
    (hopt : "OPTIONS" ∈ R.methods) :
    (dispatch R d ctx0).2 = none ∧
    headerGet (dispatch R d ctx0).1.ctx "Allow" =
      some (String.intercalate ", " (availAfter ctx0.method (c0 :: cs) [])) ∧
    (ctx0.method ≠ "OPTIONS" → availAfter ctx0.method (c0 :: cs) [] = []) ∧
    (ctx0.method = "OPTIONS" →
      (dispatch R d ctx0).1.ctx.statusCode = 204 ∧
      availAfter "OPTIONS" (c0 :: cs) [] =
        (c0 :: cs).foldl (fun a c => addAvailable c.methods a) []) := by
  have hdisp : dispatch R d ctx0 =
      walk R.methods R.mergeParams d ctx0.path ctx0.params ctx0.method (c0 :: cs)
        { ctx := ctx0 } := by
    unfold dispatch
    rw [hmatch]
  have hskip := walk_skip_all R.methods R.mergeParams d ctx0.path ctx0.params ctx0.method
      (c0 :: cs) { ctx := ctx0 } hinapp
  have heval := walkNil_eval R.methods d ctx0.path ctx0.params
      { ctx := ctx0, methodsAvailable := availAfter ctx0.method (c0 :: cs) [] } hdone
  have hrw : dispatch R d ctx0 =
      (restoreSt
        (synthesize R.methods
          { ctx := d.eff ctx0, called := false,
            methodsAvailable := availAfter ctx0.method (c0 :: cs) [], doneCount := 1 })
        { ctx := ctx0, methodsAvailable := availAfter ctx0.method (c0 :: cs) [] },
       none) := by
    rw [hdisp, hskip]
    show walkNil R.methods d ctx0.path ctx0.params
        { ctx := ctx0, methodsAvailable := availAfter ctx0.method (c0 :: cs) [] } = _
    rw [heval]
  refine ⟨by rw [hrw], ?_, fun hne => availAfter_not_options hne (c0 :: cs) [], fun hm => ?_⟩
  · rw [hrw]
    have hallow := synthesize_allow R.methods
        { ctx := d.eff ctx0, called := false,
          methodsAvailable := availAfter ctx0.method (c0 :: cs) [], doneCount := 1 }
        rfl hexp
    show headerGet (synthesize R.methods
        { ctx := d.eff ctx0, called := false,
          methodsAvailable := availAfter ctx0.method (c0 :: cs) [],
          doneCount := 1 }).ctx "Allow" = _
    exact hallow
  · constructor
    · rw [hrw]
      have hsyn := synthesize_statusCode R.methods
          { ctx := d.eff ctx0, called := false,
            methodsAvailable := availAfter ctx0.method (c0 :: cs) [], doneCount := 1 }
          rfl hexp hopt
      show (synthesize R.methods
          { ctx := d.eff ctx0, called := false,
            methodsAvailable := availAfter ctx0.method (c0 :: cs) [],
            doneCount := 1 }).ctx.statusCode = _
      rw [hsyn]
      show (if (d.eff ctx0).method = "OPTIONS" then 204
            else if (d.eff ctx0).method ∈ R.methods then 405
            else 501) = _
      rw [hmeth, if_pos hm]
    · exact availAfter_options_inapp (c0 :: cs) [] (hm ▸ hinapp)

/-- C3 witness (for the amended claim): `OPTIONS /user` on the `GET`/`POST`
router yields 204 with `Allow: GET, POST`, matching the repository's own
test. -/
theorem C3_witness :
    (∀ c ∈ routerGp.matchFn ctxOptionsReq.path, applicableB ctxOptionsReq.method c = false) ∧
    headerGet (dispatch routerGp doneId ctxOptionsReq).1.ctx "Allow" = some "GET, POST" ∧
    (dispatch routerGp doneId ctxOptionsReq).1.ctx.statusCode = 204 := by
  have h := C3_allow_header routerGp doneId ctxOptionsReq candUserGet [candUserPost]
    (by rfl) (by decide) rfl rfl rfl (by decide)
  exact ⟨by decide, h.2.1.trans (by decide), (h.2.2.2 rfl).1⟩

/-! ## C1 — path/params restoration across middleware invocation -/

/-- Candidate whose middleware runs its continuation and returns normally. -/
def candCallsNext : Cand :=
  toCand idParamRoute (.callNext id id) { params := [("id", some "a")], path := "/" }

theorem availStep_ctx (m : String) (c : Cand) (st : St) :
    (availStep m c st).ctx = st.ctx := by
  unfold availStep
  split <;> rfl

/-- C1 counterexample: a matched `GET /:id` middleware that raises leaves the
context path at the rescoped value `/` (and the params at the captured
mapping) instead of restoring the original `/a` — the restoration statements
after `yield *` are skipped on an abnormal exit. -/
theorem C1_counterexample :
    (dispatch routerThrow doneId ctxGetA).2 = some "boom" ∧
    ctxGetA.path = "/a" ∧ ctxGetA.params = [] ∧
    (dispatch routerThrow doneId ctxGetA).1.ctx.path = "/" ∧
    (dispatch routerThrow doneId ctxGetA).1.ctx.params = [("id", some "a")] := by
  decide

/-- C1 (amended): whenever the walk returns normally (no generator in the
chain raised), the context path/params equal their values at frame entry —
restoration is performed on every normal exit, including a middleware that
returns without calling its continuation; but when an applicable candidate's
middleware raises, the error propagates to the dispatch caller unswallowed
with the context left exactly as the middleware's effect produced it from the
rescoped view (no restoration). -/
theorem C1_restoration :
    (∀ (rm : List String) (mp : Bool) (d : Done) (pn : String) (p0 : Params)
       (m : String) (l : List Cand) (st : St),
      (walk rm mp d pn p0 m l st).2 = none →
        (walk rm mp d pn p0 m l st).1.ctx.path = st.ctx.path ∧
        (walk rm mp d pn p0 m l st).1.ctx.params = st.ctx.params) ∧
    (∀ (rm : List String) (mp : Bool) (d : Done) (pn : String) (p0 : Params)
       (m : String) (c : Cand) (rest : List Cand) (st : St) (eff : Ctx → Ctx)
       (msg : String),
      c.mw = Mw.throw eff msg → applicableB m c = true →
        walk rm mp d pn p0 m (c :: rest) st =
          ({ st with
             called := true,
             ctx := eff { st.ctx with
                          path := c.path,
                          params := if mp then mergeParams p0 c.params else c.params } },
           some msg)) := by
  constructor
  · intro rm mp d pn p0 m l
    induction l with
    | nil =>
      intro st h
      have hwn : walk rm mp d pn p0 m [] st = walkNil rm d pn p0 st := rfl
      rw [hwn] at h ⊢
      rcases hd : d.err with _ | e
      · rw [walkNil_eval rm d pn p0 st hd]
        exact ⟨rfl, rfl⟩
      · have : (walkNil rm d pn p0 st).2 = some e := by
          unfold walkNil runDone
          rw [hd]
        rw [this] at h
        exact Option.noConfusion h
    | cons c rest ih =>
      intro st h
      by_cases happ : applicableB m c = true
      · cases hmw : c.mw with
        | ret eff =>
          have heq : walk rm mp d pn p0 m (c :: rest) st =
              (restoreSt
                { rescope mp p0 c (availStep m c st) with
                  ctx := eff (rescope mp p0 c (availStep m c st)).ctx } st, none) := by
            show (if applicableB m c = true then _ else _) = _
            rw [if_pos happ, hmw]
          rw [heq]
          exact ⟨rfl, rfl⟩
        | throw eff msg =>
          have heq : walk rm mp d pn p0 m (c :: rest) st =
              ({ rescope mp p0 c (availStep m c st) with
                 ctx := eff (rescope mp p0 c (availStep m c st)).ctx }, some msg) := by
            show (if applicableB m c = true then _ else _) = _
            rw [if_pos happ, hmw]
          rw [heq] at h
          exact Option.noConfusion h
        | callNext pre post =>
          have hstep : walk rm mp d pn p0 m (c :: rest) st =
              (match walk rm mp d pn p0 m rest
                  { rescope mp p0 c (availStep m c st) with
                    ctx := pre (rescope mp p0 c (availStep m c st)).ctx } with
               | (st1, none) => (restoreSt { st1 with ctx := post st1.ctx } st, none)
               | (st1, some e) => (st1, some e)) := by
            show (if applicableB m c = true then _ else _) = _
            rw [if_pos happ, hmw]
          rw [hstep] at h ⊢
          rcases hw : walk rm mp d pn p0 m rest
              { rescope mp p0 c (availStep m c st) with
                ctx := pre (rescope mp p0 c (availStep m c st)).ctx } with ⟨st1, e1⟩
          rw [hw] at h
          cases e1 with
          | none => exact ⟨rfl, rfl⟩
          | some e => exact Option.noConfusion h
        | callNextThrow pre msg =>
          have hstep : walk rm mp d pn p0 m (c :: rest) st =
              (match walk rm mp d pn p0 m rest
                  { rescope mp p0 c (availStep m c st) with
                    ctx := pre (rescope mp p0 c (availStep m c st)).ctx } with
               | (st1, none) => (st1, some msg)
               | (st1, some e) => (st1, some e)) := by
            show (if applicableB m c = true then _ else _) = _
            rw [if_pos happ, hmw]
          rw [hstep] at h
          rcases hw : walk rm mp d pn p0 m rest
              { rescope mp p0 c (availStep m c st) with
                ctx := pre (rescope mp p0 c (availStep m c st)).ctx } with ⟨st1, e1⟩
          rw [hw] at h
          cases e1 with
          | none => exact Option.noConfusion h
          | some e => exact Option.noConfusion h
      · have heq : walk rm mp d pn p0 m (c :: rest) st =
            walk rm mp d pn p0 m rest (availStep m c st) := by
          show (if applicableB m c = true then _ else _) = _
          rw [if_neg happ]
        rw [heq] at h ⊢
        have := ih (availStep m c st) h
        rw [availStep_ctx] at this
        exact this
  · intro rm mp d pn p0 m c rest st eff msg hmw happ
    have hav : availStep m c st = st := by
      unfold availStep
      rw [avail_guard_off happ]
      rfl
    show (if applicableB m c = true then _ else _) = _
    rw [if_pos happ, hmw, hav]
    rfl

/-- C1 witness: a middleware that calls its continuation, with downstream
returning normally, ends the walk with the original path/params restored. -/
theorem C1_witness :
    (walk ["OPTIONS", "GET"] false doneId "/a" [] "GET" [candCallsNext]
      { ctx := ctxGetA }).2 = none ∧
    (walk ["OPTIONS", "GET"] false doneId "/a" [] "GET" [candCallsNext]
      { ctx := ctxGetA }).1.ctx.path = ctxGetA.path ∧
    (walk ["OPTIONS", "GET"] false doneId "/a" [] "GET" [candCallsNext]
      { ctx := ctxGetA }).1.ctx.params = ctxGetA.params :=
  ⟨by decide,
   (C1_restoration.1 ["OPTIONS", "GET"] false doneId "/a" [] "GET" [candCallsNext]
      { ctx := ctxGetA } (by decide)).1,
   (C1_restoration.1 ["OPTIONS", "GET"] false doneId "/a" [] "GET" [candCallsNext]
      { ctx := ctxGetA } (by decide)).2⟩

/-! ## C5 — downstream continuation invocation count -/

theorem availStep_doneCount (m : String) (c : Cand) (st : St) :
    (availStep m c st).doneCount = st.doneCount := by
  unfold availStep
  split <;> rfl

theorem synthesize_doneCount (rm : List String) (st : St) :
    (synthesize rm st).doneCount = st.doneCount := by
  unfold synthesize
  split <;> rfl

theorem walkNil_doneCount (rm : List String) (d : Done) (pn : String) (p0 : Params)
    (st : St) : (walkNil rm d pn p0 st).1.doneCount = st.doneCount + 1 := by
  rcases hd : d.err with _ | e
  · rw [walkNil_eval rm d pn p0 st hd]
    show (synthesize rm
        { st with ctx := d.eff { st.ctx with path := pn, params := p0 },
                  doneCount := st.doneCount + 1 }).doneCount = st.doneCount + 1
    rw [synthesize_doneCount]
  · have heq : walkNil rm d pn p0 st =
        ({ st with ctx := d.eff { st.ctx with path := pn, params := p0 },
                   doneCount := st.doneCount + 1 }, some e) := by
      unfold walkNil runDone
      rw [hd]
    rw [heq]

theorem walk_doneCount_le (rm : List String) (mp : Bool) (d : Done) (pn : String)
    (p0 : Params) (m : String) :
    ∀ (l : List Cand) (st : St),
      (walk rm mp d pn p0 m l st).1.doneCount ≤ st.doneCount + 1 := by
  intro l
  induction l with
  | nil =>
    intro st
    rw [show walk rm mp d pn p0 m [] st = walkNil rm d pn p0 st from rfl,
      walkNil_doneCount]
  | cons c rest ih =>
    intro st
    by_cases happ : applicableB m c = true
    · cases hmw : c.mw with
      | ret eff =>
        have heq : walk rm mp d pn p0 m (c :: rest) st =
            (restoreSt
              { rescope mp p0 c (availStep m c st) with
                ctx := eff (rescope mp p0 c (availStep m c st)).ctx } st, none) := by
          show (if applicableB m c = true then _ else _) = _
          rw [if_pos happ, hmw]
        rw [heq]
        show (availStep m c st).doneCount ≤ st.doneCount + 1
        rw [availStep_doneCount]
        exact Nat.le_succ _
      | throw eff msg =>
        have heq : walk rm mp d pn p0 m (c :: rest) st =
            ({ rescope mp p0 c (availStep m c st) with
               ctx := eff (rescope mp p0 c (availStep m c st)).ctx }, some msg) := by
          show (if applicableB m c = true then _ else _) = _
          rw [if_pos happ, hmw]
        rw [heq]
        show (availStep m c st).doneCount ≤ st.doneCount + 1
        rw [availStep_doneCount]
        exact Nat.le_succ _
      | callNext pre post =>
        have hstep : walk rm mp d pn p0 m (c :: rest) st =
            (match walk rm mp d pn p0 m rest
                { rescope mp p0 c (availStep m c st) with
                  ctx := pre (rescope mp p0 c (availStep m c st)).ctx } with
             | (st1, none) => (restoreSt { st1 with ctx := post st1.ctx } st, none)
             | (st1, some e) => (st1, some e)) := by
          show (if applicableB m c = true then _ else _) = _
          rw [if_pos happ, hmw]
        rw [hstep]
        have h2 := ih { rescope mp p0 c (availStep m c st) with
            ctx := pre (rescope mp p0 c (availStep m c st)).ctx }
        rcases hw : walk rm mp d pn p0 m rest
            { rescope mp p0 c (availStep m c st) with
              ctx := pre (rescope mp p0 c (availStep m c st)).ctx } with ⟨st1, e1⟩
        rw [hw] at h2
        have hcount : st1.doneCount ≤ st.doneCount + 1 := by
          have h3 : ({ rescope mp p0 c (availStep m c st) with
              ctx := pre (rescope mp p0 c (availStep m c st)).ctx } : St).doneCount =
              st.doneCount := by
            show (availStep m c st).doneCount = st.doneCount
            rw [availStep_doneCount]
          rw [h3] at h2
          exact h2
        cases e1 with
        | none =>
          show st1.doneCount ≤ st.doneCount + 1
          exact hcount
        | some e =>
          show st1.doneCount ≤ st.doneCount + 1
          exact hcount
      | callNextThrow pre msg =>
        have hstep : walk rm mp d pn p0 m (c :: rest) st =
            (match walk rm mp d pn p0 m rest
                { rescope mp p0 c (availStep m c st) with
                  ctx := pre (rescope mp p0 c (availStep m c st)).ctx } with
             | (st1, none) => (st1, some msg)
             | (st1, some e) => (st1, some e)) := by
          show (if applicableB m c = true then _ else _) = _
          rw [if_pos happ, hmw]
        rw [hstep]
        have h2 := ih { rescope mp p0 c (availStep m c st) with
            ctx := pre (rescope mp p0 c (availStep m c st)).ctx }
        rcases hw : walk rm mp d pn p0 m rest
            { rescope mp p0 c (availStep m c st) with
              ctx := pre (rescope mp p0 c (availStep m c st)).ctx } with ⟨st1, e1⟩
        rw [hw] at h2
        have hcount : st1.doneCount ≤ st.doneCount + 1 := by
          have h3 : ({ rescope mp p0 c (availStep m c st) with
              ctx := pre (rescope mp p0 c (availStep m c st)).ctx } : St).doneCount =
              st.doneCount := by
            show (availStep m c st).doneCount = st.doneCount
            rw [availStep_doneCount]
          rw [h3] at h2
          exact h2
        cases e1 with
        | none =>
          show st1.doneCount ≤ st.doneCount + 1
          exact hcount
        | some e =>
          show st1.doneCount ≤ st.doneCount + 1
          exact hcount
    · have heq : walk rm mp d pn p0 m (c :: rest) st =
          walk rm mp d pn p0 m rest (availStep m c st) := by
        show (if applicableB m c = true then _ else _) = _
        rw [if_neg happ]
      rw [heq]
      have h2 := ih (availStep m c st)
      rw [availStep_doneCount] at h2
      exact h2

theorem walk_doneCount_exact (rm : List String) (mp : Bool) (d : Done) (pn : String)
    (p0 : Params) (m : String) :
    ∀ (l : List Cand) (st : St), (∀ c ∈ l, c.mw.callsNext = true) →
      (walk rm mp d pn p0 m l st).1.doneCount = st.doneCount + 1 := by
  intro l
  induction l with
  | nil =>
    intro st _
    rw [show walk rm mp d pn p0 m [] st = walkNil rm d pn p0 st from rfl,
      walkNil_doneCount]
  | cons c rest ih =>
    intro st h
    have hrest : ∀ c' ∈ rest, (c'.mw).callsNext = true :=
      fun c' hc' => h c' (by simp [hc'])
    by_cases happ : applicableB m c = true
    · cases hmw : c.mw with
      | ret eff =>
        have hcn := h c (by simp)
        rw [hmw] at hcn
        exact Bool.noConfusion hcn
      | throw eff msg =>
        have hcn := h c (by simp)
        rw [hmw] at hcn
        exact Bool.noConfusion hcn
      | callNext pre post =>
        have hstep : walk rm mp d pn p0 m (c :: rest) st =
            (match walk rm mp d pn p0 m rest
                { rescope mp p0 c (availStep m c st) with
                  ctx := pre (rescope mp p0 c (availStep m c st)).ctx } with
             | (st1, none) => (restoreSt { st1 with ctx := post st1.ctx } st, none)
             | (st1, some e) => (st1, some e)) := by
          show (if applicableB m c = true then _ else _) = _
          rw [if_pos happ, hmw]
        rw [hstep]
        have h2 := ih { rescope mp p0 c (availStep m c st) with
            ctx := pre (rescope mp p0 c (availStep m c st)).ctx } hrest
        rcases hw : walk rm mp d pn p0 m rest
            { rescope mp p0 c (availStep m c st) with
              ctx := pre (rescope mp p0 c (availStep m c st)).ctx } with ⟨st1, e1⟩
        rw [hw] at h2
        have hcount : st1.doneCount = st.doneCount + 1 := by
          have h3 : ({ rescope mp p0 c (availStep m c st) with
              ctx := pre (rescope mp p0 c (availStep m c st)).ctx } : St).doneCount =
              st.doneCount := by
            show (availStep m c st).doneCount = st.doneCount
            rw [availStep_doneCount]
          rw [h3] at h2
          exact h2
        cases e1 with
        | none =>
          show st1.doneCount = st.doneCount + 1
          exact hcount
        | some e =>
          show st1.doneCount = st.doneCount + 1
          exact hcount
      | callNextThrow pre msg =>
        have hstep : walk rm mp d pn p0 m (c :: rest) st =
            (match walk rm mp d pn p0 m rest
                { rescope mp p0 c (availStep m c st) with
                  ctx := pre (rescope mp p0 c (availStep m c st)).ctx } with
             | (st1, none) => (st1, some msg)
             | (st1, some e) => (st1, some e)) := by
          show (if applicableB m c = true then _ else _) = _
          rw [if_pos happ, hmw]
        rw [hstep]
        have h2 := ih { rescope mp p0 c (availStep m c st) with
            ctx := pre (rescope mp p0 c (availStep m c st)).ctx } hrest
        rcases hw : walk rm mp d pn p0 m rest
            { rescope mp p0 c (availStep m c st) with
              ctx := pre (rescope mp p0 c (availStep m c st)).ctx } with ⟨st1, e1⟩
        rw [hw] at h2
        have hcount : st1.doneCount = st.doneCount + 1 := by
          have h3 : ({ rescope mp p0 c (availStep m c st) with
              ctx := pre (rescope mp p0 c (availStep m c st)).ctx } : St).doneCount =
              st.doneCount := by
            show (availStep m c st).doneCount = st.doneCount
            rw [availStep_doneCount]
          rw [h3] at h2
          exact h2
        cases e1 with
        | none =>
          show st1.doneCount = st.doneCount + 1
          exact hcount
        | some e =>
          show st1.doneCount = st.doneCount + 1
          exact hcount
    · have heq : walk rm mp d pn p0 m (c :: rest) st =
          walk rm mp d pn p0 m rest (availStep m c st) := by
        show (if applicableB m c = true then _ else _) = _
        rw [if_neg happ]
      rw [heq]
      have h2 := ih (availStep m c st) hrest
      rw [availStep_doneCount] at h2
      exact h2

/-- C5 counterexample: a matched, applicable middleware that returns without
calling its continuation ends the dispatch with the downstream continuation
never invoked (count 0, not 1). -/
theorem C5_counterexample :
    (dispatch routerNoNext doneId ctxGetA).1.doneCount = 0 ∧
    (dispatch routerNoNext doneId ctxGetA).1.doneCount ≠ 1 := by
  decide

/-- C5 (amended): the downstream continuation is invoked at most once per
dispatch; exactly once when no route matches the path, and exactly once when
every candidate's middleware runs its continuation (so the walk reaches the
exhausted cursor); but when an invoked middleware does not call its
continuation, the downstream continuation is not invoked at all (count 0, as
the counterexample shows). -/
theorem C5_downstream_count :
    (∀ (R : RouterD) (d : Done) (ctx0 : Ctx),
      (dispatch R d ctx0).1.doneCount ≤ 1) ∧
    (∀ (R : RouterD) (d : Done) (ctx0 : Ctx), R.matchFn ctx0.path = [] →
      (dispatch R d ctx0).1.doneCount = 1) ∧
    (∀ (R : RouterD) (d : Done) (ctx0 : Ctx),
      (∀ c ∈ R.matchFn ctx0.path, (c.mw).callsNext = true) →
      (dispatch R d ctx0).1.doneCount = 1) := by
  refine ⟨fun R d ctx0 => ?_, fun R d ctx0 hm => ?_, fun R d ctx0 h => ?_⟩
  · unfold dispatch
    rcases hm : R.matchFn ctx0.path with _ | ⟨c, cs⟩
    · show (runDone d { ctx := ctx0 }).1.doneCount ≤ 1
      exact Nat.le_refl _
    · show (walk R.methods R.mergeParams d ctx0.path ctx0.params ctx0.method (c :: cs)
        { ctx := ctx0 }).1.doneCount ≤ 1
      exact walk_doneCount_le R.methods R.mergeParams d ctx0.path ctx0.params ctx0.method
        (c :: cs) { ctx := ctx0 }
  · unfold dispatch
    rw [hm]
    rfl
  · unfold dispatch
    rcases hm : R.matchFn ctx0.path with _ | ⟨c, cs⟩
    · rfl
    · rw [hm] at h
      show (walk R.methods R.mergeParams d ctx0.path ctx0.params ctx0.method (c :: cs)
        { ctx := ctx0 }).1.doneCount = 1
      exact walk_doneCount_exact R.methods R.mergeParams d ctx0.path ctx0.params
        ctx0.method (c :: cs) { ctx := ctx0 } h

/-- C5 witness: with a continuation-calling middleware the downstream
continuation runs exactly once; with no matching route it also runs once. -/
theorem C5_witness :
    (∀ c ∈ routerCallsNext.matchFn ctxGetA.path, (c.mw).callsNext = true) ∧
    (dispatch routerCallsNext doneId ctxGetA).1.doneCount = 1 ∧
    routerCallsNext.matchFn "/nothing" = [] ∧
    (dispatch routerCallsNext doneId { path := "/nothing", method := "GET" }).1.doneCount = 1 :=
  ⟨by decide,
   C5_downstream_count.2.2 routerCallsNext doneId ctxGetA (by decide),
   rfl,
   C5_downstream_count.2.1 routerCallsNext doneId { path := "/nothing", method := "GET" }
     rfl⟩

end SirenRouter
